import Mathlib

set_option maxRecDepth 100000

/-!
Shallow embedding of `src/driver/m1ur_device.c` (PLEX PX-M1UR driver core):
the TS stream synchronizer (`m1ur_device_stream_process` /
`m1ur_device_stream_handler`), the tuning sequence (`m1ur_chrdev_tune`),
capture stop (`m1ur_chrdev_stop_capture`) and stream-id selection
(`m1ur_chrdev_set_stream_id`), together with theorems checking the
specification's claims about them.

Loops are embedded as structurally recursive functions over an explicit
iteration budget (`fuel`); each budget is taken from the loop's actual
bound, and fuel-independence lemmas show the loops terminate within it.
Machine integers (`u32`, `size_t`) are modelled as `Nat` (every quantity
involved stays far below `2^32`, so no wrap-around arises); error codes
(C `int`) are modelled as `Int`, with `-EAGAIN = -11`, `-EINVAL = -22`.
Byte buffers are `List Nat` (each element one byte).
-/

namespace M1ur

/-! ## Stream synchronizer

C source, `m1ur_device_stream_process` (lines 113-153): a window `p` of
`remain` bytes is scanned; the inner loop counts consecutive 188-byte
slots beginning with the sync byte `0x47`, stopping with
`sync_remain = true` when fewer than a full slot is left to check, or
with `sync_remain = false` when a sync byte is missing.  If the count is
below `M1UR_DEVICE_TS_SYNC_COUNT = 4` the window advances one byte;
otherwise `188 * i` bytes are emitted via `ptx_chrdev_put_stream`, and
the outer loop stops if `sync_remain` was set. -/

/-- Inner scan loop of `m1ur_device_stream_process`.  Starting at slot
index `i`, counts consecutive 188-byte slots of `w` that begin with 0x47.
The bound `(i + 1) * 188 ≤ w.length` is checked before the read
`w[i * 188]`, exactly as in the C code.  Returns the final count and the
`sync_remain` flag (`true` means the window ran out of data).  `fuel`
bounds the iterations; it is instantiated below with a sufficient value. -/
def countSyncGo (w : List Nat) : Nat → Nat → Nat × Bool
  | i, fuel + 1 =>
    if (i + 1) * 188 ≤ w.length then
      if w.getD (i * 188) 0 = 0x47 then countSyncGo w (i + 1) fuel
      else (i, false)
    else (i, true)
  | i, 0 => (i, true)

/-- The inner scan loop with its actual iteration budget: the loop can
recurse only while `(i + 1) * 188 ≤ w.length`, so starting from `i = 0`
it makes at most `w.length / 188` recursive steps. -/
def countSync (w : List Nat) : Nat × Bool :=
  countSyncGo w 0 (w.length / 188 + 1)

/-- Outer loop of `m1ur_device_stream_process`, with an explicit fuel.
Each iteration removes at least one byte of the window, so
`fuel = w.length` suffices (proved in `streamProcessGo_fuel`).
Result: (blocks emitted via `ptx_chrdev_put_stream`, final window). -/
def streamProcessGo : Nat → List Nat → List (List Nat) × List Nat
  | 0, w => ([], w)
  | fuel + 1, w =>
    if w.length = 0 then ([], w)
    else
      let c := countSync w
      if c.1 < 4 then streamProcessGo fuel (w.drop 1)
      else if c.2 then ([w.take (188 * c.1)], w.drop (188 * c.1))
      else
        let r := streamProcessGo fuel (w.drop (188 * c.1))
        (w.take (188 * c.1) :: r.1, r.2)

/-- `m1ur_device_stream_process` (lines 113-153): returns the list of
blocks handed to `ptx_chrdev_put_stream` and the final `(*buf, *len)`
window content. -/
def m1ur_device_stream_process (w : List Nat) : List (List Nat) × List Nat :=
  streamProcessGo w.length w

/-- `m1ur_device_stream_handler` (lines 155-195).  `ctx` is the content
`remain_buf[0 .. remain_len)` of the carry-over buffer
(`M1UR_DEVICE_TS_SYNC_SIZE = 752` bytes capacity), `input` the arriving
chunk.  Returns (blocks emitted during this invocation, new carry-over
content).  Mirrors the C control flow: a non-empty carry-over is either
topped up to 752 bytes and processed (advancing past the copied prefix
`t` only when the combined buffer was fully consumed), or, if the total
stays below 752, the chunk is only accumulated. -/
def m1ur_device_stream_handler (ctx input : List Nat) :
    List (List Nat) × List Nat :=
  if ctx.length ≠ 0 then
    if 752 ≤ ctx.length + input.length then
      let t := 752 - ctx.length
      let pr := m1ur_device_stream_process (ctx ++ input.take t)
      let rest := if pr.2.length = 0 then input.drop t else input
      let pr2 := m1ur_device_stream_process rest
      (pr.1 ++ pr2.1, pr2.2)
    else ([], ctx ++ input)
  else
    let pr := m1ur_device_stream_process input
    (pr.1, pr.2)

/-- Feed a list of chunks through `m1ur_device_stream_handler` in order,
starting from carry-over `ctx`; collect all emitted blocks and the final
carry-over. -/
def feedChunks (ctx : List Nat) : List (List Nat) → List (List Nat) × List Nat
  | [] => ([], ctx)
  | c :: cs =>
    let r := m1ur_device_stream_handler ctx c
    let rest := feedChunks r.2 cs
    (r.1 ++ rest.1, rest.2)

/-! ### Instrumentation for the memory-safety claim (C9)

`countSyncReadsGo` records the index of every byte read `p[i * 188]`
performed by the inner loop (a read happens only after the guard
`(i + 1) * 188 ≤ remain` holds); `streamProcessReadsGo` collects all
reads of an entire `m1ur_device_stream_process` run as absolute indices
into the initial window; `streamProcessAdvGo` records the window length
at each one-byte advance (`p++; remain--`). -/

/-- Indices read by the inner scan loop (relative to the current window). -/
def countSyncReadsGo (w : List Nat) : Nat → Nat → List Nat
  | i, fuel + 1 =>
    if (i + 1) * 188 ≤ w.length then
      (i * 188) ::
        (if w.getD (i * 188) 0 = 0x47 then countSyncReadsGo w (i + 1) fuel
         else [])
    else []
  | _, 0 => []

/-- Reads of the inner scan loop started at slot 0 with its actual budget. -/
def countSyncReads (w : List Nat) : List Nat :=
  countSyncReadsGo w 0 (w.length / 188 + 1)

/-- All byte reads of a `m1ur_device_stream_process` run, as absolute
indices into the initial window `w`. -/
def streamProcessReadsGo : Nat → List Nat → List Nat
  | 0, _ => []
  | fuel + 1, w =>
    if w.length = 0 then []
    else
      let c := countSync w
      countSyncReads w ++
        (if c.1 < 4 then (streamProcessReadsGo fuel (w.drop 1)).map (· + 1)
         else if c.2 then []
         else (streamProcessReadsGo fuel (w.drop (188 * c.1))).map
                (· + 188 * c.1))

/-- Reads of `m1ur_device_stream_process w`. -/
def streamProcessReads (w : List Nat) : List Nat :=
  streamProcessReadsGo w.length w

/-- The window length (`remain`) at each one-byte advance of
`m1ur_device_stream_process`. -/
def streamProcessAdvGo : Nat → List Nat → List Nat
  | 0, _ => []
  | fuel + 1, w =>
    if w.length = 0 then []
    else
      let c := countSync w
      if c.1 < 4 then w.length :: streamProcessAdvGo fuel (w.drop 1)
      else if c.2 then []
      else streamProcessAdvGo fuel (w.drop (188 * c.1))

/-- Window lengths at the one-byte advances of
`m1ur_device_stream_process w`. -/
def streamProcessAdv (w : List Nat) : List Nat :=
  streamProcessAdvGo w.length w

/-! ### Sample data and the clean-run predicate -/

/-- One valid 188-byte TS packet: sync byte 0x47 followed by 187 zeros. -/
def validPacket : List Nat := 0x47 :: List.replicate 187 0

/-- Four consecutive valid packets (752 bytes), the minimum run that the
synchronizer emits. -/
def fourPackets : List Nat :=
  validPacket ++ validPacket ++ validPacket ++ validPacket

/-- A clean aligned run: length a positive multiple of 188, at least 4
packets (752 bytes), and every 188-byte slot begins with 0x47. -/
def cleanRun (l : List Nat) : Prop :=
  l.length % 188 = 0 ∧ 752 ≤ l.length ∧
    ∀ j < l.length / 188, l.getD (j * 188) 0 = 0x47

instance (l : List Nat) : Decidable (cleanRun l) := by
  unfold cleanRun
  infer_instance

/-! ## Tuning sequence (`m1ur_chrdev_tune`, lines 358-598)

The tune path is a straight-line sequence of fallible hardware calls, a
PLL-lock poll loop, and a final sequence of fallible calls.  Hardware is
modelled by an environment `Env`: the `k`-th fallible hardware call of
the invocation receives `(env k).1` as its return code (0 = success,
negative = errno) and — for the `*_is_pll_locked` queries — `(env k).2`
as the lock flag it reports.  `msleep` calls are recorded in the event
trace but are infallible and consume no environment index. -/

/-- One hardware interaction of the tune / capture paths (arguments are
the registers/values the C code passes). -/
inductive HwOp
  | writeRegT (reg val : Nat)
  | writeRegS (reg val : Nat)
  | setAgcT (b : Bool)
  | setAgcS (b : Bool)
  | sleepDemodT (b : Bool)
  | sleepDemodS (b : Bool)
  | r850Wakeup
  | r850SetFreq (freq : Nat)
  | r850IsPllLocked
  | rt710SetParams (freq sr m : Nat)
  | rt710IsPllLocked
  | rt710GetSignalStrength
  | msleep (ms : Nat)
deriving DecidableEq

/-- Hardware environment: result code and (for lock queries) lock flag of
the `k`-th fallible hardware call. -/
abbrev Env := Nat → Int × Bool

/-- Result of a straight-line run of fallible calls: events issued,
number of environment indices consumed, and the final return code. -/
structure StepRes where
  evs : List HwOp
  used : Nat
  ret : Int
deriving DecidableEq

/-- Result of the PLL-lock poll loop: events issued (lock queries and the
`msleep(10)` after each unsuccessful one), environment indices consumed,
and the final values of `ret` and `tuner_locked`. -/
structure PollRes where
  evs : List HwOp
  used : Nat
  ret : Int
  locked : Bool
deriving DecidableEq

/-- Run a list of fallible hardware calls in order, stopping at the first
one whose return code is non-zero (each step in the C code is
`ret = <call>; if (ret) break;`). -/
def runSteps (env : Env) (base : Nat) : List HwOp → StepRes
  | [] => ⟨[], 0, 0⟩
  | op :: ops =>
    if (env base).1 = 0 then
      let r := runSteps env (base + 1) ops
      ⟨op :: r.evs, r.used + 1, r.ret⟩
    else ⟨[op], 1, (env base).1⟩

/-- The PLL-lock poll loop
(`i = 50; while (i--) { ret = *_is_pll_locked(...); if (!ret && tuner_locked) break; msleep(10); }`):
issues `op`, breaks when the call succeeded and reported lock, otherwise
sleeps 10 ms and retries while fuel remains.  `fuel` is the number of
iterations left after the current one, so `fuel = 49` gives the C loop's
50 iterations.  Carries out the C loop's exit values: `ret` and
`tuner_locked` are those of the last call made. -/
def pollLoop (env : Env) (op : HwOp) (base : Nat) (fuel : Nat) : PollRes :=
  let r := (env base).1
  let lk := (env base).2
  if r = 0 ∧ lk = true then ⟨[op], 1, r, lk⟩
  else
    match fuel with
    | 0 => ⟨[op, HwOp.msleep 10], 1, r, lk⟩
    | fuel + 1 =>
      let p := pollLoop env op (base + 1) fuel
      ⟨op :: HwOp.msleep 10 :: p.evs, p.used + 1, p.ret, p.locked⟩

/-- The straight-line calls of the `PTX_ISDB_T_SYSTEM` branch before the
poll loop (lines 375-437), in program order. -/
def preT (freq : Nat) : List HwOp :=
  [HwOp.writeRegT 0x47 0x30, HwOp.setAgcT false, HwOp.sleepDemodS true,
   HwOp.writeRegT 0x0e 0x77, HwOp.writeRegT 0x0f 0x10,
   HwOp.writeRegT 0x71 0x20, HwOp.sleepDemodT false,
   HwOp.writeRegT 0x76 0x0c, HwOp.writeRegT 0x1f 0x30,
   HwOp.r850Wakeup, HwOp.r850SetFreq freq]

/-- The straight-line calls of the `PTX_ISDB_T_SYSTEM` branch after a
successful poll (lines 467-485). -/
def postT : List HwOp :=
  [HwOp.setAgcT true, HwOp.writeRegT 0x71 0x01, HwOp.writeRegT 0x72 0x25,
   HwOp.writeRegT 0x75 0x00]

/-- The straight-line calls of the `PTX_ISDB_S_SYSTEM` branch before the
poll loop (lines 492-551), in program order. -/
def preS (freq : Nat) : List HwOp :=
  [HwOp.setAgcS false, HwOp.writeRegT 0x0e 0x11, HwOp.writeRegT 0x0f 0x70,
   HwOp.sleepDemodT true, HwOp.writeRegS 0x07 0x77, HwOp.writeRegS 0x08 0x10,
   HwOp.sleepDemodS false, HwOp.writeRegS 0x04 0x02, HwOp.writeRegS 0x8e 0x02,
   HwOp.writeRegT 0x1f 0x20, HwOp.rt710SetParams freq 28860 4]

/-- `m1ur_chrdev_tune`, `PTX_ISDB_T_SYSTEM` branch: pre-poll programming,
PLL poll (50 × 10 ms), then `if (ret) break; else if (!tuner_locked) { ret = -EAGAIN; break; }`,
AGC enable plus three register writes and `msleep(100)`.
Returns (event trace, return code). -/
def tuneT (env : Env) (freq : Nat) : List HwOp × Int :=
  let p1 := runSteps env 0 (preT freq)
  if p1.ret ≠ 0 then (p1.evs, p1.ret)
  else
    let p2 := pollLoop env HwOp.r850IsPllLocked p1.used 49
    if p2.ret ≠ 0 then (p1.evs ++ p2.evs, p2.ret)
    else if p2.locked = false then (p1.evs ++ p2.evs, -11)
    else
      let p3 := runSteps env (p1.used + p2.used) postT
      if p3.ret = 0 then
        (p1.evs ++ p2.evs ++ p3.evs ++ [HwOp.msleep 100], p3.ret)
      else (p1.evs ++ p2.evs ++ p3.evs, p3.ret)

/-- `m1ur_chrdev_tune`, `PTX_ISDB_S_SYSTEM` branch: pre-poll programming,
PLL poll, error / `-EAGAIN` checks, then
`rt710_get_rf_signal_strength` (return value ignored by the C code) and
the final AGC enable. -/
def tuneS (env : Env) (freq : Nat) : List HwOp × Int :=
  let p1 := runSteps env 0 (preS freq)
  if p1.ret ≠ 0 then (p1.evs, p1.ret)
  else
    let p2 := pollLoop env HwOp.rt710IsPllLocked p1.used 49
    if p2.ret ≠ 0 then (p1.evs ++ p2.evs, p2.ret)
    else if p2.locked = false then (p1.evs ++ p2.evs, -11)
    else
      let p3 := runSteps env (p1.used + p2.used + 1) [HwOp.setAgcS true]
      (p1.evs ++ p2.evs ++ HwOp.rt710GetSignalStrength :: p3.evs, p3.ret)

/-- Broadcast system selector (`params->system` / `chrdev->current_system`). -/
inductive PtxSystem
  | isdbT
  | isdbS
  | unspec
deriving DecidableEq

/-- `m1ur_chrdev_tune` (lines 358-598): dispatch on the requested system;
an unknown system yields `-EINVAL` without touching hardware. -/
def m1ur_chrdev_tune (env : Env) (sys : PtxSystem) (freq : Nat) :
    List HwOp × Int :=
  match sys with
  | PtxSystem.isdbT => tuneT env freq
  | PtxSystem.isdbS => tuneS env freq
  | PtxSystem.unspec => ([], -22)

/-- Count occurrences of one event in a trace. -/
def countOp (op : HwOp) : List HwOp → Nat
  | [] => 0
  | e :: es => (if e = op then 1 else 0) + countOp op es

/-- The event trace of `n` unsuccessful poll iterations: each issues the
lock query and then sleeps 10 ms. -/
def pollEvs (op : HwOp) : Nat → List HwOp
  | 0 => []
  | n + 1 => op :: HwOp.msleep 10 :: pollEvs op n

/-! ## Capture stop (`m1ur_chrdev_stop_capture`, lines 777-807) -/

/-- Hardware interactions of the capture-stop path. -/
inductive CapOp
  | stopStreaming
  | enableTsPinsT (b : Bool)
  | enableTsPinsS (b : Bool)
deriving DecidableEq

/-- `m1ur_chrdev_stop_capture`: always calls
`itedtv_bus_stop_streaming` first; returns 0 immediately afterwards when
the device is no longer available (`!atomic_read(&m1ur->available)`);
otherwise disables the TS output pins of the current system (their
return codes are ignored by the C code) and returns 0. -/
def m1ur_chrdev_stop_capture (available : Bool) (sys : PtxSystem) :
    List CapOp × Int :=
  let evs := [CapOp.stopStreaming]
  if !available then (evs, 0)
  else
    match sys with
    | PtxSystem.isdbT => (evs ++ [CapOp.enableTsPinsT false], 0)
    | PtxSystem.isdbS => (evs ++ [CapOp.enableTsPinsS false], 0)
    | PtxSystem.unspec => (evs, 0)

/-! ## Stream-id selection (`m1ur_chrdev_set_stream_id`, lines 624-691)

Modelled with two oracles: `envTmcc k` gives the `k`-th
`tc90522_tmcc_get_tsid_s` call's (return code, tsid read), `envGet k`
the `k`-th `tc90522_get_tsid_s` call's (return code, value of `tsid2`
after the call), and `envSet` the result of `tc90522_set_tsid_s`. -/

/-- Slot-resolution poll
(`i = 100; while (i--) { ret = tc90522_tmcc_get_tsid_s(...); if ((!ret && tsid) || ret == -EINVAL) break; msleep(10); }`).
`fuel` is the number of iterations left after the current one
(`fuel = 99` gives 100 iterations); the exit values are those of the
last call made. -/
def tmccLoop (env : Nat → Int × Nat) (base : Nat) : Nat → Int × Nat
  | 0 => env base
  | fuel + 1 =>
    if ((env base).1 = 0 ∧ (env base).2 ≠ 0) ∨ (env base).1 = -22 then
      env base
    else tmccLoop env (base + 1) fuel

/-- Post-programming verification poll
(`i = 100; while (i--) { ret = tc90522_get_tsid_s(...); if (!ret && tsid2 == tsid) break; msleep(10); }`). -/
def checkSlotLoop (env : Nat → Int × Nat) (tsid : Nat) (base : Nat) :
    Nat → Int × Nat
  | 0 => env base
  | fuel + 1 =>
    if (env base).1 = 0 ∧ (env base).2 = tsid then env base
    else checkSlotLoop env tsid (base + 1) fuel

/-- `m1ur_chrdev_set_stream_id` (lines 624-691): rejects a non-ISDB-S
system with `-EINVAL`; resolves a slot index (`stream_id < 12`) through
the tmcc poll (error → propagate, id still 0 → `-EAGAIN`); programs the
id (`tc90522_set_tsid_s`, error → propagate); then verifies through the
check-slot poll and finally overwrites `ret` with `-EAGAIN` whenever the
last read `tsid2` differs from the programmed `tsid`. -/
def m1ur_chrdev_set_stream_id (envTmcc envGet : Nat → Int × Nat)
    (envSet : Int) (sys : PtxSystem) (streamId : Nat) : Int :=
  if sys ≠ PtxSystem.isdbS then -22
  else
    let phase1 : Int ⊕ Nat :=
      if streamId < 12 then
        let rt := tmccLoop envTmcc 0 99
        if rt.1 ≠ 0 then Sum.inl rt.1
        else if rt.2 = 0 then Sum.inl (-11)
        else Sum.inr rt.2
      else Sum.inr streamId
    match phase1 with
    | Sum.inl e => e
    | Sum.inr tsid =>
      if envSet ≠ 0 then envSet
      else
        let rc := checkSlotLoop envGet tsid 0 99
        if rc.2 ≠ tsid then -11 else rc.1

/-! ### Sample environments for the tune path -/

/-- Environment in which every hardware call succeeds and every lock
query reports lock. -/
def envAllOk : Env := fun _ => (0, true)

/-- Environment for an ISDB-T tune in which the 11 pre-poll calls
(indices 0-10) succeed, the first poll attempt (index 11) fails with
`-EIO = -5`, and every later call succeeds reporting lock. -/
def envPollErr : Env := fun n =>
  if n < 11 then (0, false) else if n = 11 then (-5, false) else (0, true)

/-! ## Helper lemmas: `List.getD` through `take` and `++` -/

theorem getD_take_lt : ∀ (w : List Nat) (n k : Nat), k < n →
    (w.take n).getD k 0 = w.getD k 0 := by
  intro w
  induction w with
  | nil => intro n k _; simp
  | cons a l ih =>
    intro n k hk
    cases n with
    | zero => omega
    | succ n =>
      cases k with
      | zero => simp
      | succ k => simpa using ih n k (by omega)

theorem getD_append_left : ∀ (a b : List Nat) (n : Nat), n < a.length →
    (a ++ b).getD n 0 = a.getD n 0 := by
  intro a
  induction a with
  | nil => intro b n h; simp at h
  | cons x l ih =>
    intro b n h
    cases n with
    | zero => simp
    | succ n => simpa using ih b n (by simpa using Nat.lt_of_succ_lt_succ h)

theorem getD_append_right : ∀ (a b : List Nat) (n : Nat), a.length ≤ n →
    (a ++ b).getD n 0 = b.getD (n - a.length) 0 := by
  intro a
  induction a with
  | nil => intro b n h; simp
  | cons x l ih =>
    intro b n h
    cases n with
    | zero => simp at h
    | succ n => simpa using ih b n (by simpa using Nat.le_of_succ_le_succ h)

/-! ## Lemmas about the inner scan loop -/

/-- Every slot index strictly below the returned count passed both the
window-bound check and the sync-byte check. -/
theorem countSyncGo_markers (w : List Nat) :
    ∀ fuel i j, i ≤ j → j < (countSyncGo w i fuel).1 →
      (j + 1) * 188 ≤ w.length ∧ w.getD (j * 188) 0 = 0x47 := by
  intro fuel
  induction fuel with
  | zero =>
    intro i j hij hj
    simp only [countSyncGo] at hj
    omega
  | succ fuel ih =>
    intro i j hij hj
    simp only [countSyncGo] at hj
    by_cases hg : (i + 1) * 188 ≤ w.length
    · rw [if_pos hg] at hj
      by_cases hm : w.getD (i * 188) 0 = 0x47
      · rw [if_pos hm] at hj
        rcases Nat.eq_or_lt_of_le hij with rfl | hlt
        · exact ⟨hg, hm⟩
        · exact ih (i + 1) j hlt hj
      · rw [if_neg hm] at hj
        simp only at hj
        omega
    · rw [if_neg hg] at hj
      simp only at hj
      omega

/-- With enough fuel, the `sync_remain = true` exit means the window has
less than one full slot beyond the counted ones. -/
theorem countSyncGo_true (w : List Nat) :
    ∀ fuel i, w.length < 188 * (i + fuel) →
      (countSyncGo w i fuel).2 = true →
      w.length < ((countSyncGo w i fuel).1 + 1) * 188 := by
  intro fuel
  induction fuel with
  | zero =>
    intro i hfuel _
    simp only [countSyncGo]
    omega
  | succ fuel ih =>
    intro i hfuel hflag
    simp only [countSyncGo] at hflag ⊢
    by_cases hg : (i + 1) * 188 ≤ w.length
    · rw [if_pos hg] at hflag ⊢
      by_cases hm : w.getD (i * 188) 0 = 0x47
      · rw [if_pos hm] at hflag ⊢
        exact ih (i + 1) (by omega) hflag
      · rw [if_neg hm] at hflag
        simp at hflag
    · rw [if_neg hg] at hflag ⊢
      omega

/-- The `sync_remain = false` exit means the loop stopped at a slot that
fit in the window but whose first byte is not 0x47. -/
theorem countSyncGo_false (w : List Nat) :
    ∀ fuel i, (countSyncGo w i fuel).2 = false →
      ((countSyncGo w i fuel).1 + 1) * 188 ≤ w.length ∧
        w.getD ((countSyncGo w i fuel).1 * 188) 0 ≠ 0x47 := by
  intro fuel
  induction fuel with
  | zero =>
    intro i hflag
    simp only [countSyncGo] at hflag
    simp at hflag
  | succ fuel ih =>
    intro i hflag
    simp only [countSyncGo] at hflag ⊢
    by_cases hg : (i + 1) * 188 ≤ w.length
    · rw [if_pos hg] at hflag ⊢
      by_cases hm : w.getD (i * 188) 0 = 0x47
      · rw [if_pos hm] at hflag ⊢
        exact ih (i + 1) hflag
      · rw [if_neg hm] at hflag ⊢
        exact ⟨hg, hm⟩
    · rw [if_neg hg] at hflag
      simp at hflag

theorem countSync_markers (w : List Nat) :
    ∀ j < (countSync w).1,
      (j + 1) * 188 ≤ w.length ∧ w.getD (j * 188) 0 = 0x47 :=
  fun j hj => countSyncGo_markers w _ 0 j (Nat.zero_le j) hj

theorem countSync_true (w : List Nat) (h : (countSync w).2 = true) :
    w.length < ((countSync w).1 + 1) * 188 :=
  countSyncGo_true w _ 0 (by omega) h

theorem countSync_false (w : List Nat) (h : (countSync w).2 = false) :
    ((countSync w).1 + 1) * 188 ≤ w.length ∧
      w.getD ((countSync w).1 * 188) 0 ≠ 0x47 :=
  countSyncGo_false w _ 0 h

/-- A counted run of at least one slot fits inside the window. -/
theorem countSync_mul_le (w : List Nat) (h : 1 ≤ (countSync w).1) :
    188 * (countSync w).1 ≤ w.length := by
  have := (countSync_markers w ((countSync w).1 - 1) (by omega)).1
  omega

/-! ## Lemmas about the outer process loop -/

/-- Every block emitted by the process loop is a positive multiple of 188
bytes long and every 188-byte slot in it begins with 0x47. -/
theorem streamProcessGo_blocks : ∀ fuel (w blk : List Nat),
    blk ∈ (streamProcessGo fuel w).1 →
    0 < blk.length ∧ blk.length % 188 = 0 ∧
      ∀ j, (j + 1) * 188 ≤ blk.length → blk.getD (j * 188) 0 = 0x47 := by
  intro fuel
  induction fuel with
  | zero =>
    intro w blk h
    simp [streamProcessGo] at h
  | succ fuel ih =>
    intro w blk h
    simp only [streamProcessGo] at h
    split at h
    · simp at h
    · split at h
      · exact ih _ _ h
      · split at h
        · rename_i hn4 hsync
          simp at h
          subst h
          have h4 : 4 ≤ (countSync w).1 := by omega
          have hle : 188 * (countSync w).1 ≤ w.length :=
            countSync_mul_le w (by omega)
          have hlen : (w.take (188 * (countSync w).1)).length =
              188 * (countSync w).1 := by
            simp [List.length_take]
            omega
          refine ⟨by omega, by omega, ?_⟩
          intro j hj
          rw [hlen] at hj
          have hjlt : j < (countSync w).1 := by omega
          rw [getD_take_lt w _ _ (by omega)]
          exact (countSync_markers w j hjlt).2
        · rename_i hn4 hsync
          simp only [List.mem_cons] at h
          rcases h with h | h
          · subst h
            have h4 : 4 ≤ (countSync w).1 := by omega
            have hle : 188 * (countSync w).1 ≤ w.length :=
              countSync_mul_le w (by omega)
            have hlen : (w.take (188 * (countSync w).1)).length =
                188 * (countSync w).1 := by
              simp [List.length_take]
              omega
            refine ⟨by omega, by omega, ?_⟩
            intro j hj
            rw [hlen] at hj
            have hjlt : j < (countSync w).1 := by omega
            rw [getD_take_lt w _ _ (by omega)]
            exact (countSync_markers w j hjlt).2
          · exact ih _ _ h

/-- With enough fuel, the window left over by the process loop is shorter
than one packet. -/
theorem streamProcessGo_tail_lt : ∀ fuel (w : List Nat), w.length ≤ fuel →
    (streamProcessGo fuel w).2.length < 188 := by
  intro fuel
  induction fuel with
  | zero =>
    intro w h
    simp only [streamProcessGo]
    omega
  | succ fuel ih =>
    intro w h
    simp only [streamProcessGo]
    by_cases h0 : w.length = 0
    · rw [if_pos h0]
      show w.length < 188
      omega
    · rw [if_neg h0]
      by_cases hc : (countSync w).1 < 4
      · rw [if_pos hc]
        refine ih _ ?_
        simp only [List.length_drop]
        omega
      · rw [if_neg hc]
        by_cases hs : (countSync w).2 = true
        · rw [if_pos hs]
          show (w.drop (188 * (countSync w).1)).length < 188
          have := countSync_true w hs
          simp only [List.length_drop]
          omega
        · rw [if_neg hs]
          show (streamProcessGo fuel (w.drop (188 * (countSync w).1))).2.length < 188
          refine ih _ ?_
          simp only [List.length_drop]
          omega

/-- A window shorter than 752 bytes can never reach a count of 4, so the
process loop consumes it byte by byte and emits nothing. -/
theorem streamProcessGo_small : ∀ fuel (w : List Nat), w.length ≤ fuel →
    w.length < 752 → streamProcessGo fuel w = ([], []) := by
  intro fuel
  induction fuel with
  | zero =>
    intro w h _
    have hw : w = [] := List.length_eq_zero.mp (by omega)
    subst hw
    rfl
  | succ fuel ih =>
    intro w h hsmall
    have hlt4 : (countSync w).1 < 4 := by
      by_contra hge
      have := (countSync_markers w 3 (by omega)).1
      omega
    simp only [streamProcessGo]
    by_cases h0 : w.length = 0
    · rw [if_pos h0]
      have hw : w = [] := List.length_eq_zero.mp h0
      rw [hw]
    · rw [if_neg h0, if_pos hlt4]
      refine ih _ ?_ ?_ <;> simp only [List.length_drop] <;> omega

/-- Fuel independence: any fuel of at least the window length yields the
same result, i.e. the outer loop terminates within `w.length`
iterations. -/
theorem streamProcessGo_fuel : ∀ fuel fuel' (w : List Nat),
    w.length ≤ fuel → w.length ≤ fuel' →
    streamProcessGo fuel w = streamProcessGo fuel' w := by
  intro fuel
  induction fuel with
  | zero =>
    intro fuel' w h h'
    have hw : w = [] := List.length_eq_zero.mp (by omega)
    subst hw
    cases fuel' <;> simp [streamProcessGo]
  | succ fuel ih =>
    intro fuel' w h h'
    cases fuel' with
    | zero =>
      have hw : w = [] := List.length_eq_zero.mp (by omega)
      subst hw
      simp [streamProcessGo]
    | succ fuel' =>
      simp only [streamProcessGo]
      by_cases h0 : w.length = 0
      · rw [if_pos h0, if_pos h0]
      · rw [if_neg h0, if_neg h0]
        by_cases hc : (countSync w).1 < 4
        · rw [if_pos hc, if_pos hc]
          refine ih fuel' _ ?_ ?_ <;> simp only [List.length_drop] <;> omega
        · rw [if_neg hc, if_neg hc]
          by_cases hs : (countSync w).2 = true
          · rw [if_pos hs, if_pos hs]
          · rw [if_neg hs, if_neg hs]
            rw [ih fuel' (w.drop (188 * (countSync w).1))
              (by simp only [List.length_drop]; omega)
              (by simp only [List.length_drop]; omega)]

/-! ## Lemmas about the instrumented runs (reads and advances) -/

theorem countSyncReadsGo_bound (w : List Nat) :
    ∀ fuel i r, r ∈ countSyncReadsGo w i fuel → r + 188 ≤ w.length := by
  intro fuel
  induction fuel with
  | zero =>
    intro i r h
    simp [countSyncReadsGo] at h
  | succ fuel ih =>
    intro i r h
    simp only [countSyncReadsGo] at h
    by_cases hg : (i + 1) * 188 ≤ w.length
    · rw [if_pos hg] at h
      simp only [List.mem_cons] at h
      rcases h with rfl | h
      · omega
      · by_cases hm : w.getD (i * 188) 0 = 0x47
        · rw [if_pos hm] at h
          exact ih (i + 1) r h
        · rw [if_neg hm] at h
          simp at h
    · rw [if_neg hg] at h
      simp at h

theorem countSyncReads_bound (w : List Nat) :
    ∀ r ∈ countSyncReads w, r + 188 ≤ w.length :=
  fun r h => countSyncReadsGo_bound w _ 0 r h

/-- Every byte read of the process loop lies at least a full slot before
the end of the window: the read `p[i * 188]` happens only under the
guard `(i + 1) * 188 ≤ remain`. -/
theorem streamProcessReadsGo_bound : ∀ fuel (w : List Nat) r,
    r ∈ streamProcessReadsGo fuel w → r + 188 ≤ w.length := by
  intro fuel
  induction fuel with
  | zero =>
    intro w r h
    simp [streamProcessReadsGo] at h
  | succ fuel ih =>
    intro w r h
    simp only [streamProcessReadsGo] at h
    by_cases h0 : w.length = 0
    · rw [if_pos h0] at h
      simp at h
    · rw [if_neg h0] at h
      simp only [List.mem_append] at h
      rcases h with h | h
      · exact countSyncReads_bound w r h
      · by_cases hc : (countSync w).1 < 4
        · rw [if_pos hc] at h
          simp only [List.mem_map] at h
          obtain ⟨x, hx, rfl⟩ := h
          have := ih _ x hx
          simp only [List.length_drop] at this
          omega
        · rw [if_neg hc] at h
          by_cases hs : (countSync w).2 = true
          · rw [if_pos hs] at h
            simp at h
          · rw [if_neg hs] at h
            simp only [List.mem_map] at h
            obtain ⟨x, hx, rfl⟩ := h
            have := ih _ x hx
            simp only [List.length_drop] at this
            omega

/-- Every one-byte advance happens while the window is non-empty. -/
theorem streamProcessAdvGo_pos : ∀ fuel (w : List Nat) a,
    a ∈ streamProcessAdvGo fuel w → 0 < a := by
  intro fuel
  induction fuel with
  | zero =>
    intro w a h
    simp [streamProcessAdvGo] at h
  | succ fuel ih =>
    intro w a h
    simp only [streamProcessAdvGo] at h
    by_cases h0 : w.length = 0
    · rw [if_pos h0] at h
      simp at h
    · rw [if_neg h0] at h
      by_cases hc : (countSync w).1 < 4
      · rw [if_pos hc] at h
        simp only [List.mem_cons] at h
        rcases h with rfl | h
        · omega
        · exact ih _ a h
      · rw [if_neg hc] at h
        by_cases hs : (countSync w).2 = true
        · rw [if_pos hs] at h
          simp at h
        · rw [if_neg hs] at h
          exact ih _ a h

/-! ## Transfer to `m1ur_device_stream_process` and handler lemmas -/

theorem stream_process_blocks (w blk : List Nat)
    (h : blk ∈ (m1ur_device_stream_process w).1) :
    0 < blk.length ∧ blk.length % 188 = 0 ∧
      ∀ j, (j + 1) * 188 ≤ blk.length → blk.getD (j * 188) 0 = 0x47 :=
  streamProcessGo_blocks w.length w blk h

theorem stream_process_tail_lt (w : List Nat) :
    (m1ur_device_stream_process w).2.length < 188 :=
  streamProcessGo_tail_lt w.length w le_rfl

theorem stream_process_small (w : List Nat) (h : w.length < 752) :
    m1ur_device_stream_process w = ([], []) :=
  streamProcessGo_small w.length w le_rfl h

theorem stream_handler_empty_ctx (input : List Nat) :
    m1ur_device_stream_handler [] input = m1ur_device_stream_process input := by
  simp [m1ur_device_stream_handler]

theorem stream_handler_small (input : List Nat) (h : input.length < 752) :
    m1ur_device_stream_handler [] input = ([], []) := by
  rw [stream_handler_empty_ctx, stream_process_small input h]

/-- On return from any handler invocation the carry-over holds fewer
than 752 bytes. -/
theorem stream_handler_tail_lt (ctx input : List Nat) :
    (m1ur_device_stream_handler ctx input).2.length < 752 := by
  unfold m1ur_device_stream_handler
  by_cases hc : ctx.length ≠ 0
  · rw [if_pos hc]
    by_cases hl : 752 ≤ ctx.length + input.length
    · rw [if_pos hl]
      show (m1ur_device_stream_process _).2.length < 752
      exact Nat.lt_trans (stream_process_tail_lt _) (by norm_num)
    · rw [if_neg hl]
      show (ctx ++ input).length < 752
      simp only [List.length_append]
      omega
  · rw [if_neg hc]
    show (m1ur_device_stream_process input).2.length < 752
    exact Nat.lt_trans (stream_process_tail_lt _) (by norm_num)

/-! ## Clean aligned runs -/

theorem countSync_clean (l : List Nat) (h : cleanRun l) :
    (countSync l).1 = l.length / 188 ∧ (countSync l).2 = true := by
  obtain ⟨hmod, hlen, hmark⟩ := h
  have hnk : (countSync l).1 ≤ l.length / 188 := by
    by_contra hgt
    have := (countSync_markers l (l.length / 188) (by omega)).1
    omega
  cases hflag : (countSync l).2 with
  | false =>
    have hf := countSync_false l hflag
    exact absurd (hmark (countSync l).1 (by omega)) hf.2
  | true =>
    have ht := countSync_true l hflag
    exact ⟨by omega, rfl⟩

theorem stream_process_clean (l : List Nat) (h : cleanRun l) :
    m1ur_device_stream_process l = ([l], []) := by
  have hcs := countSync_clean l h
  obtain ⟨hmod, hlen, -⟩ := h
  have h188 : 188 * (l.length / 188) = l.length := by omega
  obtain ⟨m, hm⟩ : ∃ m, l.length = m + 1 := ⟨l.length - 1, by omega⟩
  unfold m1ur_device_stream_process
  rw [hm]
  simp only [streamProcessGo]
  rw [if_neg (show ¬l.length = 0 by omega)]
  rw [hcs.1, hcs.2]
  rw [if_neg (show ¬l.length / 188 < 4 by omega)]
  rw [if_pos rfl]
  rw [h188, List.take_length, List.drop_length]

theorem cleanRun_append (a b : List Nat) (ha : cleanRun a) (hb : cleanRun b) :
    cleanRun (a ++ b) := by
  obtain ⟨ham, hal, hamark⟩ := ha
  obtain ⟨hbm, hbl, hbmark⟩ := hb
  refine ⟨?_, ?_, ?_⟩
  · simp only [List.length_append]
    omega
  · simp only [List.length_append]
    omega
  · intro j hj
    simp only [List.length_append] at hj
    by_cases hja : j * 188 < a.length
    · rw [getD_append_left a b _ hja]
      exact hamark j (by omega)
    · rw [getD_append_right a b _ (by omega)]
      have heq : j * 188 - a.length = (j - a.length / 188) * 188 := by omega
      rw [heq]
      exact hbmark _ (by omega)

theorem cleanRun_flatten : ∀ (chunks : List (List Nat)), chunks ≠ [] →
    (∀ c ∈ chunks, cleanRun c) → cleanRun chunks.flatten := by
  intro chunks
  induction chunks with
  | nil => intro hne _; exact absurd rfl hne
  | cons c cs ih =>
    intro _ h
    cases cs with
    | nil => simpa using h c (by simp)
    | cons d ds =>
      show cleanRun (c ++ (d :: ds).flatten)
      exact cleanRun_append c _ (h c (by simp))
        (ih (by simp) (fun x hx => h x (by simp [hx])))

theorem feed_clean : ∀ (chunks : List (List Nat)),
    (∀ c ∈ chunks, cleanRun c) → feedChunks [] chunks = (chunks, []) := by
  intro chunks
  induction chunks with
  | nil => intro _; rfl
  | cons c cs ih =>
    intro h
    have hr : m1ur_device_stream_handler [] c = ([c], []) := by
      rw [stream_handler_empty_ctx, stream_process_clean c (h c (by simp))]
    have hcs := ih (fun x hx => h x (by simp [hx]))
    simp only [feedChunks, hr, hcs]
    simp

/-! ## Lemmas about the tune building blocks -/

theorem countOp_append (op : HwOp) : ∀ (a b : List HwOp),
    countOp op (a ++ b) = countOp op a + countOp op b := by
  intro a b
  induction a with
  | nil => simp [countOp]
  | cons x l ih =>
    simp only [List.cons_append, countOp]
    show (if x = op then 1 else 0) + countOp op (l ++ b) = _
    rw [ih]
    omega

/-- A straight-line run whose calls all succeed performs every step. -/
theorem runSteps_ok (env : Env) : ∀ (ops : List HwOp) (base : Nat),
    (∀ i < ops.length, (env (base + i)).1 = 0) →
    runSteps env base ops = ⟨ops, ops.length, 0⟩ := by
  intro ops
  induction ops with
  | nil => intro base _; rfl
  | cons op ops ih =>
    intro base h
    have h0 : (env base).1 = 0 := by simpa using h 0 (by simp)
    simp only [runSteps, if_pos h0]
    rw [ih (base + 1) (fun i hi => by
      have e : base + 1 + i = base + (i + 1) := by omega
      rw [e]
      exact h (i + 1) (by simpa using Nat.succ_lt_succ hi))]
    simp

/-- A straight-line run that returns 0 executed all its steps. -/
theorem runSteps_evs_of_ret (env : Env) : ∀ (ops : List HwOp) (base : Nat),
    (runSteps env base ops).ret = 0 → (runSteps env base ops).evs = ops := by
  intro ops
  induction ops with
  | nil => intro base _; rfl
  | cons op ops ih =>
    intro base h
    by_cases h0 : (env base).1 = 0
    · simp only [runSteps, if_pos h0] at h ⊢
      rw [ih (base + 1) h]
    · simp only [runSteps, if_neg h0] at h
      exact absurd h h0

/-- A straight-line run issues no event more often than it occurs in its
program. -/
theorem countOp_runSteps_le (env : Env) (op : HwOp) :
    ∀ (ops : List HwOp) (base : Nat),
      countOp op (runSteps env base ops).evs ≤ countOp op ops := by
  intro ops
  induction ops with
  | nil => intro base; simp [runSteps]
  | cons x ops ih =>
    intro base
    by_cases h0 : (env base).1 = 0
    · simp only [runSteps, if_pos h0, countOp]
      exact Nat.add_le_add_left (ih (base + 1)) _
    · simp only [runSteps, if_neg h0, countOp]
      omega

/-- Exhausted poll: if every attempt in the budget succeeds but reports
"not locked", the loop runs all its iterations and exits with
`ret = 0`, `tuner_locked = false`. -/
theorem pollLoop_exhaust (env : Env) (op : HwOp) : ∀ (fuel base : Nat),
    (∀ i ≤ fuel, (env (base + i)).1 = 0 ∧ (env (base + i)).2 = false) →
    pollLoop env op base fuel = ⟨pollEvs op (fuel + 1), fuel + 1, 0, false⟩ := by
  intro fuel
  induction fuel with
  | zero =>
    intro base h
    have h0 := h 0 (by omega)
    simp only [Nat.add_zero] at h0
    simp only [pollLoop]
    rw [if_neg (by simp [h0.1, h0.2])]
    rw [h0.1, h0.2]
    simp [pollEvs]
  | succ fuel ih =>
    intro base h
    have h0 := h 0 (by omega)
    simp only [Nat.add_zero] at h0
    simp only [pollLoop]
    rw [if_neg (by simp [h0.1, h0.2])]
    rw [ih (base + 1) (fun i hi => by
      have e : base + 1 + i = base + (i + 1) := by omega
      rw [e]
      exact h (i + 1) (by omega))]
    simp [pollEvs]

/-- Poll with a first lock at attempt `j` (0-based): earlier attempts may
fail or report "not locked"; the loop keeps polling and stops at attempt
`j` with `ret = 0` and `tuner_locked = true`, having made `j + 1`
calls. -/
theorem pollLoop_first_lock (env : Env) (op : HwOp) :
    ∀ (j fuel base : Nat), j ≤ fuel →
    (env (base + j)).1 = 0 → (env (base + j)).2 = true →
    (∀ i < j, ¬((env (base + i)).1 = 0 ∧ (env (base + i)).2 = true)) →
    pollLoop env op base fuel = ⟨pollEvs op j ++ [op], j + 1, 0, true⟩ := by
  intro j
  induction j with
  | zero =>
    intro fuel base _ hr hl _
    simp only [Nat.add_zero] at hr hl
    cases fuel with
    | zero =>
      simp only [pollLoop]
      rw [if_pos ⟨hr, hl⟩, hr, hl]
      simp [pollEvs]
    | succ f =>
      simp only [pollLoop]
      rw [if_pos ⟨hr, hl⟩, hr, hl]
      simp [pollEvs]
  | succ j ih =>
    intro fuel base hj hr hl hbefore
    have h0 : ¬((env (base + 0)).1 = 0 ∧ (env (base + 0)).2 = true) :=
      hbefore 0 (by omega)
    simp only [Nat.add_zero] at h0
    cases fuel with
    | zero => omega
    | succ fuel =>
      simp only [pollLoop]
      rw [if_neg h0]
      rw [ih fuel (base + 1) (by omega)
        (by
          have e : base + 1 + j = base + (j + 1) := by omega
          rw [e]
          exact hr)
        (by
          have e : base + 1 + j = base + (j + 1) := by omega
          rw [e]
          exact hl)
        (fun i hi => by
          have e : base + 1 + i = base + (i + 1) := by omega
          rw [e]
          exact hbefore (i + 1) (by omega))]
      simp [pollEvs]

/-- The poll makes at most `fuel + 1` calls. -/
theorem pollLoop_used_le (env : Env) (op : HwOp) : ∀ (fuel base : Nat),
    (pollLoop env op base fuel).used ≤ fuel + 1 := by
  intro fuel
  induction fuel with
  | zero =>
    intro base
    simp only [pollLoop]
    split <;> simp
  | succ fuel ih =>
    intro base
    simp only [pollLoop]
    split
    · simp
    · simp only
      have := ih (base + 1)
      omega

/-- In the poll's event trace the lock query appears exactly `used`
times. -/
theorem countOp_pollLoop (env : Env) (op : HwOp) (hne : op ≠ HwOp.msleep 10) :
    ∀ (fuel base : Nat),
      countOp op (pollLoop env op base fuel).evs =
        (pollLoop env op base fuel).used := by
  intro fuel
  induction fuel with
  | zero =>
    intro base
    simp only [pollLoop]
    split <;> simp [countOp, hne, Ne.symm hne]
  | succ fuel ih =>
    intro base
    simp only [pollLoop]
    split
    · simp [countOp]
    · simp only [countOp, ih (base + 1)]
      simp [Ne.symm hne]
      omega

theorem countOp_pollEvs_self (op : HwOp) (hne : op ≠ HwOp.msleep 10) :
    ∀ n, countOp op (pollEvs op n) = n := by
  intro n
  induction n with
  | zero => simp [pollEvs, countOp]
  | succ n ih =>
    simp only [pollEvs, countOp, ih]
    simp [Ne.symm hne]
    omega

theorem countOp_pollEvs_sleep (op : HwOp) (hne : op ≠ HwOp.msleep 10) :
    ∀ n, countOp (HwOp.msleep 10) (pollEvs op n) = n := by
  intro n
  induction n with
  | zero => simp [pollEvs, countOp]
  | succ n ih =>
    simp only [pollEvs, countOp, ih]
    simp [hne]
    omega

/-! ## Lemmas about the two tune branches -/

theorem preT_length (freq : Nat) : (preT freq).length = 11 := rfl

theorem preS_length (freq : Nat) : (preS freq).length = 11 := rfl

theorem runSteps_preT_ok (env : Env) (freq : Nat)
    (hpre : ∀ i < 11, (env i).1 = 0) :
    runSteps env 0 (preT freq) = ⟨preT freq, 11, 0⟩ := by
  have h := runSteps_ok env (preT freq) 0 (fun i hi => by
    simpa using hpre i (by simpa [preT_length] using hi))
  rw [preT_length] at h
  exact h

theorem runSteps_preS_ok (env : Env) (freq : Nat)
    (hpre : ∀ i < 11, (env i).1 = 0) :
    runSteps env 0 (preS freq) = ⟨preS freq, 11, 0⟩ := by
  have h := runSteps_ok env (preS freq) 0 (fun i hi => by
    simpa using hpre i (by simpa [preS_length] using hi))
  rw [preS_length] at h
  exact h

/-- `tuneT` with an exhausted poll: all 50 lock queries succeed but
report "not locked"; the result is `-EAGAIN` and the trace is the
pre-poll programming followed by the 50 polled iterations. -/
theorem tuneT_exhaust (env : Env) (freq : Nat)
    (hpre : ∀ i < 11, (env i).1 = 0)
    (hpoll : ∀ i < 50, env (11 + i) = (0, false)) :
    tuneT env freq = (preT freq ++ pollEvs HwOp.r850IsPllLocked 50, -11) := by
  have h1 := runSteps_preT_ok env freq hpre
  have h2 : pollLoop env HwOp.r850IsPllLocked 11 49 =
      ⟨pollEvs HwOp.r850IsPllLocked 50, 50, 0, false⟩ := by
    have h := pollLoop_exhaust env HwOp.r850IsPllLocked 49 11 (fun i hi => by
      rw [hpoll i (by omega)]
      exact ⟨rfl, rfl⟩)
    simpa using h
  simp [tuneT, h1, h2]

/-- `tuneS` with an exhausted poll. -/
theorem tuneS_exhaust (env : Env) (freq : Nat)
    (hpre : ∀ i < 11, (env i).1 = 0)
    (hpoll : ∀ i < 50, env (11 + i) = (0, false)) :
    tuneS env freq = (preS freq ++ pollEvs HwOp.rt710IsPllLocked 50, -11) := by
  have h1 := runSteps_preS_ok env freq hpre
  have h2 : pollLoop env HwOp.rt710IsPllLocked 11 49 =
      ⟨pollEvs HwOp.rt710IsPllLocked 50, 50, 0, false⟩ := by
    have h := pollLoop_exhaust env HwOp.rt710IsPllLocked 49 11 (fun i hi => by
      rw [hpoll i (by omega)]
      exact ⟨rfl, rfl⟩)
    simpa using h
  simp [tuneS, h1, h2]

/-- In any `tuneT` run the lock query is issued at most 50 times. -/
theorem tuneT_pll_le (env : Env) (freq : Nat) :
    countOp HwOp.r850IsPllLocked (tuneT env freq).1 ≤ 50 := by
  have hpre : countOp HwOp.r850IsPllLocked
      (runSteps env 0 (preT freq)).evs = 0 := by
    have h1 : countOp HwOp.r850IsPllLocked (preT freq) = 0 := by
      simp [preT, countOp]
    have h2 := countOp_runSteps_le env HwOp.r850IsPllLocked (preT freq) 0
    omega
  have hpoll := countOp_pollLoop env HwOp.r850IsPllLocked (by simp) 49
    (runSteps env 0 (preT freq)).used
  have hused := pollLoop_used_le env HwOp.r850IsPllLocked 49
    (runSteps env 0 (preT freq)).used
  have hpost : countOp HwOp.r850IsPllLocked
      (runSteps env ((runSteps env 0 (preT freq)).used +
        (pollLoop env HwOp.r850IsPllLocked
          (runSteps env 0 (preT freq)).used 49).used) postT).evs = 0 := by
    have h1 : countOp HwOp.r850IsPllLocked postT = 0 := by
      simp [postT, countOp]
    have h2 := countOp_runSteps_le env HwOp.r850IsPllLocked postT
      ((runSteps env 0 (preT freq)).used +
        (pollLoop env HwOp.r850IsPllLocked
          (runSteps env 0 (preT freq)).used 49).used)
    omega
  simp only [tuneT]
  split_ifs <;> simp [countOp_append, countOp] <;> omega

/-- In any `tuneS` run the lock query is issued at most 50 times. -/
theorem tuneS_pll_le (env : Env) (freq : Nat) :
    countOp HwOp.rt710IsPllLocked (tuneS env freq).1 ≤ 50 := by
  have hpre : countOp HwOp.rt710IsPllLocked
      (runSteps env 0 (preS freq)).evs = 0 := by
    have h1 : countOp HwOp.rt710IsPllLocked (preS freq) = 0 := by
      simp [preS, countOp]
    have h2 := countOp_runSteps_le env HwOp.rt710IsPllLocked (preS freq) 0
    omega
  have hpoll := countOp_pollLoop env HwOp.rt710IsPllLocked (by simp) 49
    (runSteps env 0 (preS freq)).used
  have hused := pollLoop_used_le env HwOp.rt710IsPllLocked 49
    (runSteps env 0 (preS freq)).used
  have hpost : countOp HwOp.rt710IsPllLocked
      (runSteps env ((runSteps env 0 (preS freq)).used +
        (pollLoop env HwOp.rt710IsPllLocked
          (runSteps env 0 (preS freq)).used 49).used + 1)
        [HwOp.setAgcS true]).evs = 0 := by
    have h1 : countOp HwOp.rt710IsPllLocked [HwOp.setAgcS true] = 0 := by
      simp [countOp]
    have h2 := countOp_runSteps_le env HwOp.rt710IsPllLocked
      [HwOp.setAgcS true]
      ((runSteps env 0 (preS freq)).used +
        (pollLoop env HwOp.rt710IsPllLocked
          (runSteps env 0 (preS freq)).used 49).used + 1)
    omega
  simp only [tuneS]
  split_ifs <;> simp [countOp_append, countOp] <;> omega

/-! ## Claim theorems -/

/-- C1: every block the stream synchronizer passes to the packet sink
(`ptx_chrdev_put_stream`) — i.e. every block emitted by any invocation of
`m1ur_device_stream_handler` — has a length that is a positive multiple
of 188, and every 188-byte slot within the block begins with the marker
byte 0x47. -/
theorem c1_blocks_aligned (ctx input blk : List Nat)
    (h : blk ∈ (m1ur_device_stream_handler ctx input).1) :
    0 < blk.length ∧ blk.length % 188 = 0 ∧
      ∀ j, (j + 1) * 188 ≤ blk.length → blk.getD (j * 188) 0 = 0x47 := by
  unfold m1ur_device_stream_handler at h
  by_cases hc : ctx.length ≠ 0
  · rw [if_pos hc] at h
    by_cases hl : 752 ≤ ctx.length + input.length
    · rw [if_pos hl] at h
      simp only [List.mem_append] at h
      rcases h with h | h
      · exact stream_process_blocks _ _ h
      · exact stream_process_blocks _ _ h
    · rw [if_neg hl] at h
      simp at h
  · rw [if_neg hc] at h
    exact stream_process_blocks _ _ h

theorem c1_blocks_aligned_witness :
    fourPackets ∈ (m1ur_device_stream_handler [] fourPackets).1 ∧
    (0 < fourPackets.length ∧ fourPackets.length % 188 = 0 ∧
      ∀ j, (j + 1) * 188 ≤ fourPackets.length →
        fourPackets.getD (j * 188) 0 = 0x47) :=
  ⟨by decide, c1_blocks_aligned [] fourPackets fourPackets (by decide)⟩

/-- C2 counterexample: splitting the 752-byte sequence `fourPackets`
into the chunks `[0x47]` and its 751-byte remainder makes the handler
emit nothing, while the same bytes fed as a single chunk are emitted as
one 752-byte block, so the concatenations differ. -/
theorem c2_counterexample :
    ([[0x47], fourPackets.drop 1] : List (List Nat)).flatten = fourPackets ∧
    (feedChunks [] [[0x47], fourPackets.drop 1]).1.flatten ≠
      (feedChunks [] [fourPackets]).1.flatten := by
  have hclean : cleanRun fourPackets := by decide
  have h1 : m1ur_device_stream_handler [] [0x47] = ([], []) :=
    stream_handler_small [0x47] (by simp)
  have h2 : m1ur_device_stream_handler [] (fourPackets.drop 1) = ([], []) :=
    stream_handler_small (fourPackets.drop 1) (by decide)
  have h3 : m1ur_device_stream_handler [] fourPackets = ([fourPackets], []) := by
    rw [stream_handler_empty_ctx, stream_process_clean fourPackets hclean]
  constructor
  · decide
  · simp only [feedChunks, h1, h2, h3]
    simp [fourPackets, validPacket]

/-- C2 amended: chunk-size invariance fails in general because a chunk
processed while the carry-over is empty has its unresolved tail bytes
discarded rather than carried over; it does hold when every chunk is
itself a clean aligned run of at least 4 valid packets, in which case
each chunk is emitted in full and the concatenation of the emitted
blocks equals that of single-chunk delivery. -/
theorem c2_clean_chunks_equiv (chunks : List (List Nat))
    (h : ∀ c ∈ chunks, cleanRun c) :
    (feedChunks [] chunks).1.flatten =
      (feedChunks [] [chunks.flatten]).1.flatten := by
  cases chunks with
  | nil =>
    have h0 : m1ur_device_stream_handler [] [] = ([], []) :=
      stream_handler_small [] (by simp)
    simp [feedChunks, h0]
  | cons c cs =>
    have hcl : cleanRun (c ++ cs.flatten) := by
      have hj := cleanRun_flatten (c :: cs) (by simp) h
      simpa using hj
    have h3 : m1ur_device_stream_handler [] (c ++ cs.flatten) =
        ([c ++ cs.flatten], []) := by
      rw [stream_handler_empty_ctx, stream_process_clean _ hcl]
    rw [feed_clean _ h]
    simp [feedChunks, h3]

theorem c2_clean_chunks_equiv_witness :
    (∀ c ∈ ([fourPackets, fourPackets] : List (List Nat)), cleanRun c) ∧
    (feedChunks [] [fourPackets, fourPackets]).1.flatten =
      (feedChunks [] [([fourPackets, fourPackets] : List (List Nat)).flatten]).1.flatten :=
  ⟨by decide, c2_clean_chunks_equiv [fourPackets, fourPackets] (by decide)⟩

/-- C3 counterexample: a fresh stream context fed one complete valid
188-byte packet (fewer than 4 valid packets) emits nothing — but the
bytes do NOT remain in the carry-over buffer: the handler returns with
the carry-over empty, the packet having been consumed byte by byte by
the resynchronization path. -/
theorem c3_counterexample :
    validPacket ≠ [] ∧
    (m1ur_device_stream_handler [] validPacket).1 = [] ∧
    (m1ur_device_stream_handler [] validPacket).2 = [] := by decide

/-- C3 amended: when the scan runs out of window before confirming 4
aligned packets, the unresolved bytes are not preserved: the current
byte is discarded and scanning continues.  Consequently an input of
fewer than 752 bytes delivered to an empty carry-over emits no block and
leaves the carry-over empty — the bytes are discarded, not retained. -/
theorem c3_small_input_discarded (input : List Nat)
    (h : input.length < 752) :
    m1ur_device_stream_handler [] input = ([], []) :=
  stream_handler_small input h

theorem c3_small_input_discarded_witness :
    validPacket.length < 752 ∧
    m1ur_device_stream_handler [] validPacket = ([], []) :=
  ⟨by decide, c3_small_input_discarded validPacket (by decide)⟩

/-- C4: on return from every invocation of
`m1ur_device_stream_handler`, the carry-over fill length (`remain_len`)
is strictly below 752 bytes: a full 752-byte accumulation is always
reduced by a synchronization pass before the handler returns. -/
theorem c4_remain_len_lt (ctx input : List Nat) :
    (m1ur_device_stream_handler ctx input).2.length < 752 :=
  stream_handler_tail_lt ctx input

/-- C9: memory safety and termination of
`m1ur_device_stream_process`: every marker-byte read lies at least 188
bytes before the end of the window (reads are guarded by
`(i + 1) * 188 ≤ remain`), every one-byte advance happens while
`remain > 0`, and the outer loop terminates within `w.length`
iterations (any fuel of at least `w.length` yields the same result). -/
theorem c9_stream_safety (w : List Nat) :
    (∀ r ∈ streamProcessReads w, r + 188 ≤ w.length) ∧
    (∀ a ∈ streamProcessAdv w, 0 < a) ∧
    (∀ fuel, w.length ≤ fuel →
      streamProcessGo fuel w = m1ur_device_stream_process w) :=
  ⟨fun r h => streamProcessReadsGo_bound w.length w r h,
   fun a h => streamProcessAdvGo_pos w.length w a h,
   fun fuel hf => streamProcessGo_fuel fuel w.length w hf le_rfl⟩

theorem c9_stream_safety_witness :
    (∀ r ∈ streamProcessReads fourPackets, r + 188 ≤ fourPackets.length) ∧
    (∀ a ∈ streamProcessAdv fourPackets, 0 < a) ∧
    (∀ fuel, fourPackets.length ≤ fuel →
      streamProcessGo fuel fourPackets =
        m1ur_device_stream_process fourPackets) :=
  c9_stream_safety fourPackets

/-- `tuneT` when the poll first reports lock at attempt `j` (0-based):
earlier attempts may have failed or reported "not locked"; the tune
proceeds and its outcome is that of the post-poll programming. -/
theorem tuneT_first_lock (env : Env) (freq j : Nat)
    (hj : j ≤ 49)
    (hpre : ∀ i < 11, (env i).1 = 0)
    (hlockr : (env (11 + j)).1 = 0) (hlockl : (env (11 + j)).2 = true)
    (hbefore : ∀ i < j, ¬((env (11 + i)).1 = 0 ∧ (env (11 + i)).2 = true)) :
    tuneT env freq =
      (preT freq ++
        (pollEvs HwOp.r850IsPllLocked j ++ [HwOp.r850IsPllLocked]) ++
        (runSteps env (11 + (j + 1)) postT).evs ++
        (if (runSteps env (11 + (j + 1)) postT).ret = 0
          then [HwOp.msleep 100] else []),
       (runSteps env (11 + (j + 1)) postT).ret) := by
  have h1 := runSteps_preT_ok env freq hpre
  have h2 := pollLoop_first_lock env HwOp.r850IsPllLocked j 49 11 hj
    hlockr hlockl hbefore
  by_cases hp3 : (runSteps env (11 + (j + 1)) postT).ret = 0
  · simp [tuneT, h1, h2, hp3, List.append_assoc]
  · simp [tuneT, h1, h2, hp3, List.append_assoc]

/-- C5 counterexample: in `envPollErr` the first poll attempt of an
ISDB-T tune fails with `-5` (`-EIO`), yet the tune does not abort with
that error: it keeps polling (2 lock queries in total) and returns
success. -/
theorem c5_counterexample :
    (m1ur_chrdev_tune envPollErr PtxSystem.isdbT 0).2 = 0 ∧
    (m1ur_chrdev_tune envPollErr PtxSystem.isdbT 0).2 ≠ -5 ∧
    countOp HwOp.r850IsPllLocked
      (m1ur_chrdev_tune envPollErr PtxSystem.isdbT 0).1 = 2 := by decide

/-- C5 amended: a hardware access failure inside the PLL-lock poll loop
does not abort the tune: the loop keeps polling (the break condition is
`!ret && tuner_locked`), and if some attempt `j` within the 50 succeeds
and reports lock — regardless of failures among the earlier attempts —
the tune performs exactly `j + 1` lock queries and proceeds; its result
is that of the post-poll programming, not the earlier poll error.  (A
hardware failure in the straight-line programming before the poll still
aborts immediately; an error surfaces from the poll itself only when the
final executed attempt fails.) -/
theorem c5_poll_error_not_fatal (env : Env) (freq j : Nat)
    (hj : j ≤ 49)
    (hpre : ∀ i < 11, (env i).1 = 0)
    (hlockr : (env (11 + j)).1 = 0) (hlockl : (env (11 + j)).2 = true)
    (hbefore : ∀ i < j, ¬((env (11 + i)).1 = 0 ∧ (env (11 + i)).2 = true)) :
    countOp HwOp.r850IsPllLocked
        (m1ur_chrdev_tune env PtxSystem.isdbT freq).1 = j + 1 ∧
    (m1ur_chrdev_tune env PtxSystem.isdbT freq).2 =
      (runSteps env (11 + (j + 1)) postT).ret := by
  have ht := tuneT_first_lock env freq j hj hpre hlockr hlockl hbefore
  have he : m1ur_chrdev_tune env PtxSystem.isdbT freq = tuneT env freq := rfl
  have h1' : (tuneT env freq).1 =
      preT freq ++
        (pollEvs HwOp.r850IsPllLocked j ++ [HwOp.r850IsPllLocked]) ++
        (runSteps env (11 + (j + 1)) postT).evs ++
        (if (runSteps env (11 + (j + 1)) postT).ret = 0
          then [HwOp.msleep 100] else []) := by rw [ht]
  have h2' : (tuneT env freq).2 =
      (runSteps env (11 + (j + 1)) postT).ret := by rw [ht]
  rw [he]
  refine ⟨?_, h2'⟩
  rw [h1']
  simp only [countOp_append]
  have c1 : countOp HwOp.r850IsPllLocked (preT freq) = 0 := by
    simp [preT, countOp]
  have c2 : countOp HwOp.r850IsPllLocked
      (pollEvs HwOp.r850IsPllLocked j) = j :=
    countOp_pollEvs_self _ (by decide) j
  have c3 : countOp HwOp.r850IsPllLocked [HwOp.r850IsPllLocked] = 1 := by
    simp [countOp]
  have c4 : countOp HwOp.r850IsPllLocked
      (runSteps env (11 + (j + 1)) postT).evs = 0 := by
    have ha : countOp HwOp.r850IsPllLocked postT = 0 := by
      simp [postT, countOp]
    have hb := countOp_runSteps_le env HwOp.r850IsPllLocked postT
      (11 + (j + 1))
    omega
  have c5 : countOp HwOp.r850IsPllLocked
      (if (runSteps env (11 + (j + 1)) postT).ret = 0
        then [HwOp.msleep 100] else []) = 0 := by
    split <;> simp [countOp]
  omega

theorem c5_poll_error_not_fatal_witness :
    (envPollErr 11).1 = -5 ∧
    countOp HwOp.r850IsPllLocked
      (m1ur_chrdev_tune envPollErr PtxSystem.isdbT 0).1 = 1 + 1 ∧
    (m1ur_chrdev_tune envPollErr PtxSystem.isdbT 0).2 =
      (runSteps envPollErr (11 + (1 + 1)) postT).ret := by
  obtain ⟨ha, hb⟩ := c5_poll_error_not_fatal envPollErr 0 1 (by omega)
    (fun i hi => by simp [envPollErr, hi])
    (by decide) (by decide)
    (fun i hi => by
      have h0 : i = 0 := by omega
      subst h0
      decide)
  exact ⟨by decide, ha, hb⟩

/-- C6: a tune attempt whose PLL-lock poll reads all succeed but never
report lock performs exactly 50 poll attempts, sleeps 10 ms after each
of them (≈500 ms worst case), and returns the retryable `-EAGAIN`; and
unconditionally — for every environment — the poll issues at most 50
lock queries, so it never runs unboundedly.  Both ISDB-T and ISDB-S
branches of `m1ur_chrdev_tune` are covered. -/
theorem c6_poll_bounded :
    (∀ (env : Env) (freq : Nat),
      countOp HwOp.r850IsPllLocked
          (m1ur_chrdev_tune env PtxSystem.isdbT freq).1 ≤ 50 ∧
      countOp HwOp.rt710IsPllLocked
          (m1ur_chrdev_tune env PtxSystem.isdbS freq).1 ≤ 50) ∧
    (∀ (env : Env) (freq : Nat),
      (∀ i < 11, (env i).1 = 0) →
      (∀ i < 50, env (11 + i) = (0, false)) →
      (m1ur_chrdev_tune env PtxSystem.isdbT freq).2 = -11 ∧
      countOp HwOp.r850IsPllLocked
          (m1ur_chrdev_tune env PtxSystem.isdbT freq).1 = 50 ∧
      countOp (HwOp.msleep 10)
          (m1ur_chrdev_tune env PtxSystem.isdbT freq).1 = 50 ∧
      (m1ur_chrdev_tune env PtxSystem.isdbS freq).2 = -11 ∧
      countOp HwOp.rt710IsPllLocked
          (m1ur_chrdev_tune env PtxSystem.isdbS freq).1 = 50 ∧
      countOp (HwOp.msleep 10)
          (m1ur_chrdev_tune env PtxSystem.isdbS freq).1 = 50) := by
  constructor
  · intro env freq
    exact ⟨tuneT_pll_le env freq, tuneS_pll_le env freq⟩
  · intro env freq hpre hpoll
    have heT : m1ur_chrdev_tune env PtxSystem.isdbT freq =
        tuneT env freq := rfl
    have heS : m1ur_chrdev_tune env PtxSystem.isdbS freq =
        tuneS env freq := rfl
    rw [heT, heS, tuneT_exhaust env freq hpre hpoll,
      tuneS_exhaust env freq hpre hpoll]
    have cT1 : countOp HwOp.r850IsPllLocked (preT freq) = 0 := by
      simp [preT, countOp]
    have cT2 : countOp (HwOp.msleep 10) (preT freq) = 0 := by
      simp [preT, countOp]
    have cS1 : countOp HwOp.rt710IsPllLocked (preS freq) = 0 := by
      simp [preS, countOp]
    have cS2 : countOp (HwOp.msleep 10) (preS freq) = 0 := by
      simp [preS, countOp]
    refine ⟨rfl, ?_, ?_, rfl, ?_, ?_⟩
    · show countOp HwOp.r850IsPllLocked
        (preT freq ++ pollEvs HwOp.r850IsPllLocked 50) = 50
      rw [countOp_append, cT1,
        countOp_pollEvs_self HwOp.r850IsPllLocked (by decide) 50]
    · show countOp (HwOp.msleep 10)
        (preT freq ++ pollEvs HwOp.r850IsPllLocked 50) = 50
      rw [countOp_append, cT2,
        countOp_pollEvs_sleep HwOp.r850IsPllLocked (by decide) 50]
    · show countOp HwOp.rt710IsPllLocked
        (preS freq ++ pollEvs HwOp.rt710IsPllLocked 50) = 50
      rw [countOp_append, cS1,
        countOp_pollEvs_self HwOp.rt710IsPllLocked (by decide) 50]
    · show countOp (HwOp.msleep 10)
        (preS freq ++ pollEvs HwOp.rt710IsPllLocked 50) = 50
      rw [countOp_append, cS2,
        countOp_pollEvs_sleep HwOp.rt710IsPllLocked (by decide) 50]

theorem c6_poll_bounded_witness :
    (m1ur_chrdev_tune (fun _ => ((0 : Int), false)) PtxSystem.isdbT 0).2 = -11 ∧
    countOp HwOp.r850IsPllLocked
        (m1ur_chrdev_tune (fun _ => ((0 : Int), false)) PtxSystem.isdbT 0).1 = 50 ∧
    countOp (HwOp.msleep 10)
        (m1ur_chrdev_tune (fun _ => ((0 : Int), false)) PtxSystem.isdbT 0).1 = 50 ∧
    (m1ur_chrdev_tune (fun _ => ((0 : Int), false)) PtxSystem.isdbS 0).2 = -11 ∧
    countOp HwOp.rt710IsPllLocked
        (m1ur_chrdev_tune (fun _ => ((0 : Int), false)) PtxSystem.isdbS 0).1 = 50 ∧
    countOp (HwOp.msleep 10)
        (m1ur_chrdev_tune (fun _ => ((0 : Int), false)) PtxSystem.isdbS 0).1 = 50 :=
  c6_poll_bounded.2 (fun _ => (0, false)) 0 (fun i _ => rfl) (fun i _ => rfl)

/-- C7 counterexample: on a fully successful ISDB-T tune the trace event
after `tc90522_set_agc_t(true)` (position 12) is the register write
`0x71 ← 0x01`: enabling AGC is not the final hardware access of the
ISDB-T branch. -/
theorem c7_counterexample :
    (m1ur_chrdev_tune envAllOk PtxSystem.isdbT 0).2 = 0 ∧
    (m1ur_chrdev_tune envAllOk PtxSystem.isdbT 0).1[12]? =
      some (HwOp.setAgcT true) ∧
    (m1ur_chrdev_tune envAllOk PtxSystem.isdbT 0).1[13]? =
      some (HwOp.writeRegT 0x71 0x01) := by decide

/-- C7 amended: for ISDB-S, enabling AGC (`tc90522_set_agc_s(true)`) is
the final step of every successful tune; for ISDB-T, enabling AGC
(`tc90522_set_agc_t(true)`) is followed by exactly three register writes
(`0x71 ← 0x01`, `0x72 ← 0x25`, `0x75 ← 0x00`) and a 100 ms delay as the
final steps. -/
theorem c7_agc_final (env : Env) (freq : Nat) :
    ((m1ur_chrdev_tune env PtxSystem.isdbS freq).2 = 0 →
      ∃ pre, (m1ur_chrdev_tune env PtxSystem.isdbS freq).1 =
        pre ++ [HwOp.setAgcS true]) ∧
    ((m1ur_chrdev_tune env PtxSystem.isdbT freq).2 = 0 →
      ∃ pre, (m1ur_chrdev_tune env PtxSystem.isdbT freq).1 =
        pre ++ [HwOp.setAgcT true, HwOp.writeRegT 0x71 0x01,
          HwOp.writeRegT 0x72 0x25, HwOp.writeRegT 0x75 0x00,
          HwOp.msleep 100]) := by
  constructor
  · have he : m1ur_chrdev_tune env PtxSystem.isdbS freq =
        tuneS env freq := rfl
    rw [he]
    intro h
    simp only [tuneS] at h ⊢
    set P1 := runSteps env 0 (preS freq) with hP1
    set P2 := pollLoop env HwOp.rt710IsPllLocked P1.used 49 with hP2
    set P3 := runSteps env (P1.used + P2.used + 1) [HwOp.setAgcS true]
      with hP3
    by_cases h1 : P1.ret ≠ 0
    · rw [if_pos h1] at h ⊢
      exact absurd h h1
    · rw [if_neg h1] at h ⊢
      by_cases h2 : P2.ret ≠ 0
      · rw [if_pos h2] at h ⊢
        exact absurd h h2
      · rw [if_neg h2] at h ⊢
        by_cases h3 : P2.locked = false
        · rw [if_pos h3] at h ⊢
          replace h : (-11 : Int) = 0 := h
          exact absurd h (by decide)
        · rw [if_neg h3] at h ⊢
          replace h : P3.ret = 0 := h
          rw [hP3] at h
          refine ⟨P1.evs ++ P2.evs ++ [HwOp.rt710GetSignalStrength], ?_⟩
          show P1.evs ++ P2.evs ++ HwOp.rt710GetSignalStrength :: P3.evs = _
          rw [hP3, runSteps_evs_of_ret env [HwOp.setAgcS true] _ h]
          simp [List.append_assoc]
  · have he : m1ur_chrdev_tune env PtxSystem.isdbT freq =
        tuneT env freq := rfl
    rw [he]
    intro h
    simp only [tuneT] at h ⊢
    set P1 := runSteps env 0 (preT freq) with hP1
    set P2 := pollLoop env HwOp.r850IsPllLocked P1.used 49 with hP2
    set P3 := runSteps env (P1.used + P2.used) postT with hP3
    by_cases h1 : P1.ret ≠ 0
    · rw [if_pos h1] at h ⊢
      exact absurd h h1
    · rw [if_neg h1] at h ⊢
      by_cases h2 : P2.ret ≠ 0
      · rw [if_pos h2] at h ⊢
        exact absurd h h2
      · rw [if_neg h2] at h ⊢
        by_cases h3 : P2.locked = false
        · rw [if_pos h3] at h ⊢
          replace h : (-11 : Int) = 0 := h
          exact absurd h (by decide)
        · rw [if_neg h3] at h ⊢
          by_cases h4 : P3.ret = 0
          · rw [if_pos h4] at h ⊢
            rw [hP3] at h4
            refine ⟨P1.evs ++ P2.evs, ?_⟩
            show P1.evs ++ P2.evs ++ P3.evs ++ [HwOp.msleep 100] = _
            rw [hP3, runSteps_evs_of_ret env postT _ h4]
            simp [postT, List.append_assoc]
          · rw [if_neg h4] at h ⊢
            exact absurd h h4

theorem c7_agc_final_witness :
    (∃ pre, (m1ur_chrdev_tune envAllOk PtxSystem.isdbS 0).1 =
      pre ++ [HwOp.setAgcS true]) ∧
    (∃ pre, (m1ur_chrdev_tune envAllOk PtxSystem.isdbT 0).1 =
      pre ++ [HwOp.setAgcT true, HwOp.writeRegT 0x71 0x01,
        HwOp.writeRegT 0x72 0x25, HwOp.writeRegT 0x75 0x00,
        HwOp.msleep 100]) :=
  ⟨(c7_agc_final envAllOk 0).1 (by decide),
   (c7_agc_final envAllOk 0).2 (by decide)⟩

/-- C8: `m1ur_chrdev_stop_capture` always stops the transport's
streaming first (it is the first event of every trace); when the device
is marked unavailable it performs no demodulator access afterwards (the
trace is exactly the stop-streaming call) and returns 0. -/
theorem c8_stop_capture (available : Bool) (sys : PtxSystem) :
    (m1ur_chrdev_stop_capture available sys).1.head? =
      some CapOp.stopStreaming ∧
    (m1ur_chrdev_stop_capture false sys).1 = [CapOp.stopStreaming] ∧
    (m1ur_chrdev_stop_capture available sys).2 = 0 := by
  cases available <;> cases sys <;> simp [m1ur_chrdev_stop_capture]

/-- Exhausted verification poll: with no matching read in the budget the
loop returns the last call's values. -/
theorem checkSlotLoop_exhaust (env : Nat → Int × Nat) (tsid : Nat) :
    ∀ (fuel base : Nat),
      (∀ i < fuel, ¬((env (base + i)).1 = 0 ∧ (env (base + i)).2 = tsid)) →
      checkSlotLoop env tsid base fuel = env (base + fuel) := by
  intro fuel
  induction fuel with
  | zero =>
    intro base _
    simp [checkSlotLoop]
  | succ fuel ih =>
    intro base h
    have h0 := h 0 (by omega)
    simp only [Nat.add_zero] at h0
    simp only [checkSlotLoop]
    rw [if_neg h0]
    rw [ih (base + 1) (fun i hi => by
      have e : base + 1 + i = base + (i + 1) := by omega
      rw [e]
      exact h (i + 1) (by omega))]
    congr 1
    omega

/-- C10: in `m1ur_chrdev_set_stream_id`, once the post-programming
verification poll has exhausted its 100 attempts, the function returns
the retryable `-EAGAIN` whenever the last read transport id differs from
the programmed one — even when the final `tc90522_get_tsid_s` read
itself failed, so a transport error during verification is reported as
the retryable mismatch error instead of the transport error. -/
theorem c10_verify_eagain (envTmcc envGet : Nat → Int × Nat) (sid : Nat)
    (hsid : 12 ≤ sid)
    (hnolock : ∀ i < 100, ¬((envGet i).1 = 0 ∧ (envGet i).2 = sid))
    (hlast : (envGet 99).2 ≠ sid) :
    m1ur_chrdev_set_stream_id envTmcc envGet 0 PtxSystem.isdbS sid = -11 := by
  have hloop : checkSlotLoop envGet sid 0 99 = envGet 99 := by
    have h := checkSlotLoop_exhaust envGet sid 99 0 (fun i hi => by
      simpa using hnolock i (by omega))
    simpa using h
  simp [m1ur_chrdev_set_stream_id, hloop, Nat.not_lt.mpr hsid, hlast]

theorem c10_verify_eagain_witness :
    ((-5 : Int) ≠ 0) ∧
    m1ur_chrdev_set_stream_id (fun _ => (0, 0)) (fun _ => (-5, 0)) 0
      PtxSystem.isdbS 12 = -11 :=
  ⟨by decide,
   c10_verify_eagain (fun _ => (0, 0)) (fun _ => (-5, 0)) 12 (by omega)
     (fun i _ => by simp) (by simp)⟩

end M1ur
